import Mathlib

/-!
Verification development for the InspectionPwa realtime media pipeline and
session protocol client.  Each definition is a shallow embedding of the
corresponding JavaScript source: the PCM sample codec and resampler and the
voice-activity detector from `audio-manager.js`, the playback queue from
`audio-manager.js`, and the connection/retry/dispatch state machine from
`gemini-live-client.js`.  Machine floats appearing in the source are modelled
by rationals (every quantity the claims touch is exactly representable),
16-bit storage is modelled by explicit wrapping, and the fallible decode
path returns an `Option`.
-/

/- ===================== PCM sample codec ===================== -/

/-- Clamp a sample to `[-1, 1]`:
`Math.max(-1, Math.min(1, sample))` in `_float32ToBase64PCM16`. -/
def clamp1 (x : ℚ) : ℚ := max (-1) (min 1 x)

/-- JavaScript truncation toward zero, the first half of the `ToInt16`
conversion applied when storing into an `Int16Array` slot. -/
def truncToZero (q : ℚ) : ℤ := if q < 0 then ⌈q⌉ else ⌊q⌋

/-- Wrap an integer into the signed 16-bit range, the second half of the
`ToInt16` conversion. -/
def toInt16 (z : ℤ) : ℤ :=
  let m := z % 65536
  if m < 32768 then m else m - 65536

/-- One sample of `_float32ToBase64PCM16` (audio-manager.js lines 255-260):
clamp to `[-1,1]`, scale negative values by `0x8000` and non-negative values
by `0x7FFF`, and store through the truncating `Int16Array` conversion. -/
def float32ToPCM16 (x : ℚ) : ℤ :=
  let c := clamp1 x
  toInt16 (truncToZero (if c < 0 then c * 32768 else c * 32767))

/-- Little-endian byte serialization of one 16-bit word, as produced by
viewing the `Int16Array` buffer through `new Uint8Array(int16Array.buffer)`. -/
def int16ToBytesLE (z : ℤ) : List ℕ :=
  let u := (z % 65536).toNat
  [u % 256, u / 256]

/-- `_float32ToBase64PCM16` down to the raw byte string handed to `btoa`.
The browser primitives `btoa`/`atob` are inverse bijections between byte
strings and base64 text, so the wire payload is modelled by the byte list
itself. -/
def encodeWire (xs : List ℚ) : List ℕ :=
  (xs.map float32ToPCM16).flatMap int16ToBytesLE

/-- Group a byte list into consecutive pairs.  Only even-length lists reach
it: an odd-length buffer makes `new Int16Array(buffer)` throw, which
`decodeWire` reports as `none`. -/
def bytePairs : List ℕ → List (ℕ × ℕ)
  | a :: b :: r => (a, b) :: bytePairs r
  | _ => []

/-- Reinterpret the byte list as little-endian signed 16-bit words
(`new Int16Array(bytes.buffer)`); the `% 256` models the wrapping store
`bytes[i] = binary.charCodeAt(i)` into a `Uint8Array`. -/
def wireToPCM16 (bs : List ℕ) : List ℤ :=
  (bytePairs bs).map fun p => toInt16 ((p.1 % 256 + 256 * (p.2 % 256) : ℕ) : ℤ)

/-- `_base64ToPCM16Float32` (audio-manager.js lines 276-294): byte string to
16-bit words to floats, dividing every word by 32768.  `none` models the
`RangeError` thrown on a buffer whose length is not a multiple of two. -/
def decodeWire (bs : List ℕ) : Option (List ℚ) :=
  if bs.length % 2 = 0 then
    some ((wireToPCM16 bs).map fun z : ℤ => (z : ℚ) / 32768)
  else none

theorem toInt16_range (z : ℤ) : -32768 ≤ toInt16 z ∧ toInt16 z < 32768 := by
  simp only [toInt16]
  split <;> omega

theorem toInt16_eq_self (z : ℤ) (h1 : -32768 ≤ z) (h2 : z < 32768) :
    toInt16 z = z := by
  simp only [toInt16]
  split <;> omega

theorem toInt16_bytesLE (z : ℤ) :
    toInt16 ((((z % 65536).toNat % 256 + 256 * ((z % 65536).toNat / 256 % 256) : ℕ)) : ℤ)
      = toInt16 z := by
  simp only [toInt16]
  have h0 : (0 : ℤ) ≤ z % 65536 := Int.emod_nonneg z (by norm_num)
  have h1 : z % 65536 < 65536 := Int.emod_lt_of_pos z (by norm_num)
  have h2 : ((z % 65536).toNat : ℤ) = z % 65536 := Int.toNat_of_nonneg h0
  split <;> split <;> omega

theorem encodeWire_length (xs : List ℚ) : (encodeWire xs).length = 2 * xs.length := by
  induction xs with
  | nil => rfl
  | cons x xs ih =>
      simp only [encodeWire, List.map_cons, List.flatMap_cons] at *
      simp [int16ToBytesLE, ih]
      ring

theorem wireToPCM16_encode (xs : List ℚ) :
    wireToPCM16 (encodeWire xs) = xs.map float32ToPCM16 := by
  induction xs with
  | nil => rfl
  | cons x xs ih =>
      simp only [encodeWire, List.map_cons, List.flatMap_cons] at *
      simp only [int16ToBytesLE, List.cons_append, List.nil_append,
        wireToPCM16, bytePairs, List.map_cons] at *
      refine congrArg₂ _ ?_ ih
      have hb : (float32ToPCM16 x % 65536).toNat % 256 % 256
          = (float32ToPCM16 x % 65536).toNat % 256 := Nat.mod_mod_of_dvd _ dvd_rfl
      calc toInt16 (((float32ToPCM16 x % 65536).toNat % 256 % 256
            + 256 * ((float32ToPCM16 x % 65536).toNat / 256 % 256) : ℕ) : ℤ)
      _ = toInt16 (((float32ToPCM16 x % 65536).toNat % 256
            + 256 * ((float32ToPCM16 x % 65536).toNat / 256 % 256) : ℕ) : ℤ) := by rw [hb]
      _ = toInt16 (float32ToPCM16 x) := toInt16_bytesLE _
      _ = float32ToPCM16 x := by
            obtain ⟨hl, hr⟩ := toInt16_range (truncToZero
              (if clamp1 x < 0 then clamp1 x * 32768 else clamp1 x * 32767))
            exact toInt16_eq_self _ hl hr

theorem decode_encodeWire (xs : List ℚ) :
    decodeWire (encodeWire xs)
      = some (xs.map fun x => (float32ToPCM16 x : ℚ) / 32768) := by
  unfold decodeWire
  rw [encodeWire_length, if_pos (by omega), wireToPCM16_encode, List.map_map]
  rfl

theorem truncToZero_intCast (m : ℤ) : truncToZero ((m : ℚ)) = m := by
  unfold truncToZero
  split
  · exact Int.ceil_intCast m
  · exact Int.floor_intCast m

theorem clamp1_of_mem (x : ℚ) (h1 : -1 ≤ x) (h2 : x ≤ 1) : clamp1 x = x := by
  unfold clamp1
  rw [min_eq_right h2, max_eq_right h1]

/-- Exact value of the encoder on a sample lying on the 16-bit grid
`n / 32768`: negative and zero samples encode exactly, positive samples
land one step low because of the asymmetric `0x7FFF` scale and the
truncating store. -/
theorem float32ToPCM16_quant (n : ℤ) (h1 : -32768 ≤ n) (h2 : n ≤ 32768) :
    float32ToPCM16 ((n : ℚ) / 32768) = if n ≤ 0 then n else n - 1 := by
  have hq1 : (-1 : ℚ) ≤ (n : ℚ) / 32768 := by
    rw [le_div_iff (by norm_num)]
    have : ((-32768 : ℤ) : ℚ) ≤ (n : ℚ) := by exact_mod_cast h1
    push_cast at this ⊢
    linarith
  have hq2 : (n : ℚ) / 32768 ≤ 1 := by
    rw [div_le_iff (by norm_num)]
    have : (n : ℚ) ≤ ((32768 : ℤ) : ℚ) := by exact_mod_cast h2
    push_cast at this ⊢
    linarith
  have hcl : clamp1 ((n : ℚ) / 32768) = (n : ℚ) / 32768 := clamp1_of_mem _ hq1 hq2
  rcases lt_trichotomy n 0 with hn | hn | hn
  · have hc : (n : ℚ) / 32768 < 0 :=
      div_neg_of_neg_of_pos (by exact_mod_cast hn) (by norm_num)
    have hmul : (n : ℚ) / 32768 * 32768 = (n : ℚ) :=
      div_mul_cancel₀ _ (by norm_num)
    rw [float32ToPCM16, hcl, if_pos hc, hmul, truncToZero_intCast,
      toInt16_eq_self n h1 (by omega), if_pos (le_of_lt hn)]
  · subst hn
    norm_num [float32ToPCM16, clamp1, truncToZero, toInt16]
  · have hc : ¬((n : ℚ) / 32768 < 0) := by
      push_neg
      positivity
    have hfl : ⌊(n : ℚ) / 32768 * 32767⌋ = n - 1 := by
      rw [Int.floor_eq_iff]
      constructor
      · rw [div_mul_eq_mul_div, le_div_iff (by norm_num)]
        have hcast : (n : ℚ) ≤ 32768 := by exact_mod_cast h2
        push_cast
        nlinarith
      · rw [div_mul_eq_mul_div, div_lt_iff (by norm_num)]
        have hcast : (1 : ℚ) ≤ (n : ℚ) := by exact_mod_cast hn
        push_cast
        nlinarith
    have htr : truncToZero ((n : ℚ) / 32768 * 32767) = n - 1 := by
      rw [truncToZero, if_neg (by push_neg; positivity), hfl]
    rw [float32ToPCM16, hcl, if_neg hc, htr,
      toInt16_eq_self (n - 1) (by omega) (by omega), if_neg (by omega)]

/-- Per-sample round-trip error bound on the 16-bit grid. -/
theorem sampleRound (n : ℤ) (h1 : -32768 ≤ n) (h2 : n ≤ 32768) :
    |(float32ToPCM16 ((n : ℚ) / 32768) : ℚ) / 32768 - (n : ℚ) / 32768| ≤ 1 / 32768 := by
  rw [float32ToPCM16_quant n h1 h2]
  by_cases h : n ≤ 0
  · rw [if_pos h, sub_self, abs_zero]
    norm_num
  · rw [if_neg h]
    have hd : ((n - 1 : ℤ) : ℚ) / 32768 - (n : ℚ) / 32768 = -(1 / 32768) := by
      push_cast
      ring
    rw [hd, abs_neg, abs_of_nonneg (by norm_num)]

/-- C4: for every float sample sequence with each sample in `[-1,1]` and
quantized at 16-bit precision (`q = n / 32768`, `n ∈ [-32768, 32768]`),
decoding the encoded wire payload succeeds and reproduces every sample
within one quantization step, `1 / 32768`. -/
theorem c4_codec_roundtrip (xs : List ℚ)
    (hq : ∀ q ∈ xs, ∃ n : ℤ, -32768 ≤ n ∧ n ≤ 32768 ∧ q = (n : ℚ) / 32768) :
    ∃ ys, decodeWire (encodeWire xs) = some ys ∧ ys.length = xs.length ∧
      ∀ i, ∀ hy : i < ys.length, ∀ hx : i < xs.length,
        |ys[i] - xs[i]| ≤ 1 / 32768 := by
  refine ⟨_, decode_encodeWire xs, by simp, ?_⟩
  intro i hy hx
  simp only [List.getElem_map]
  obtain ⟨n, hn1, hn2, hneq⟩ := hq xs[i] (List.getElem_mem hx)
  rw [hneq]
  exact sampleRound n hn1 hn2

theorem c4_codec_roundtrip_witness :
    ∃ ys, decodeWire (encodeWire [(1 : ℚ), -1, 1/2]) = some ys ∧
      ys.length = ([(1 : ℚ), -1, 1/2]).length ∧
      ∀ i, ∀ hy : i < ys.length, ∀ hx : i < ([(1 : ℚ), -1, 1/2]).length,
        |ys[i] - ([(1 : ℚ), -1, 1/2])[i]| ≤ 1 / 32768 :=
  c4_codec_roundtrip [1, -1, 1/2] (by
    intro q hq
    simp only [List.mem_cons, List.not_mem_nil, or_false] at hq
    rcases hq with h | h | h
    · exact ⟨32768, by norm_num, by norm_num, by rw [h]; norm_num⟩
    · exact ⟨-32768, by norm_num, by norm_num, by rw [h]; norm_num⟩
    · exact ⟨16384, by norm_num, by norm_num, by rw [h]; norm_num⟩)

/-- C10: every wire payload the decoder accepts produces samples in the
half-open interval `[-1, 1)`: the 16-bit word lies in `[-32768, 32767]`
and is divided by 32768, so `-1` is attainable but `+1` never occurs. -/
theorem c10_decode_range (bs : List ℕ) (ys : List ℚ)
    (h : decodeWire bs = some ys) : ∀ q ∈ ys, -1 ≤ q ∧ q < 1 := by
  intro q hq
  unfold decodeWire at h
  split at h
  · injection h with h
    subst h
    rcases List.mem_map.mp hq with ⟨z, hz, rfl⟩
    rcases List.mem_map.mp hz with ⟨p, hp, rfl⟩
    obtain ⟨hl, hr⟩ := toInt16_range ((p.1 % 256 + 256 * (p.2 % 256) : ℕ) : ℤ)
    set z := toInt16 ((p.1 % 256 + 256 * (p.2 % 256) : ℕ) : ℤ) with hzdef
    constructor
    · rw [le_div_iff (by norm_num)]
      have : ((-32768 : ℤ) : ℚ) ≤ (z : ℚ) := by exact_mod_cast hl
      push_cast at this ⊢
      linarith
    · rw [div_lt_iff (by norm_num)]
      have : (z : ℚ) < ((32768 : ℤ) : ℚ) := by exact_mod_cast hr
      push_cast at this ⊢
      linarith
  · exact absurd h (by simp)

theorem c10_decode_range_witness :
    (-1 ≤ (-1 : ℚ) ∧ (-1 : ℚ) < 1) ∧
      (-1 ≤ (32767 / 32768 : ℚ) ∧ (32767 / 32768 : ℚ) < 1) :=
  ⟨c10_decode_range [0, 128, 255, 127] [(-1 : ℚ), 32767 / 32768]
      (by norm_num [decodeWire, wireToPCM16, bytePairs, toInt16]) (-1)
      (List.mem_cons_self _ _),
   c10_decode_range [0, 128, 255, 127] [(-1 : ℚ), 32767 / 32768]
      (by norm_num [decodeWire, wireToPCM16, bytePairs, toInt16]) (32767 / 32768)
      (by simp)⟩

/- ===================== Resampler ===================== -/

/-- Read a list at an integer index; an out-of-range read models the JS
`undefined` element (never reached by the properties proved here). -/
def listGetI (xs : List ℚ) (i : ℤ) : ℚ :=
  if h : 0 ≤ i ∧ i.toNat < xs.length then xs.get ⟨i.toNat, h.2⟩ else 0

/-- `_resample` (part_000 lines 219-235): identity when the rates match,
otherwise linear interpolation at fractional source index
`i * (fromRate / toRate)`, output length `Math.round(length / ratio)`,
with the ceiling index clamped to the last input sample. -/
def resample (audioData : List ℚ) (fromRate toRate : ℚ) : List ℚ :=
  if fromRate = toRate then audioData
  else
    let rr := fromRate / toRate
    let newLength := (round ((audioData.length : ℚ) / rr)).toNat
    (List.range newLength).map fun i : ℕ =>
      let srcIndex := (i : ℚ) * rr
      let srcIndexFloor := ⌊srcIndex⌋
      let srcIndexCeil := min (srcIndexFloor + 1) ((audioData.length : ℤ) - 1)
      let t := srcIndex - (srcIndexFloor : ℚ)
      listGetI audioData srcIndexFloor * (1 - t) + listGetI audioData srcIndexCeil * t

/-- C8: for positive rates, `resample` returns
`round(len(x) * toRate / fromRate)` samples, and resampling with equal
rates is the identity on the input. -/
theorem c8_resample_length (xs : List ℚ) (r1 r2 : ℚ) (h1 : 0 < r1) (h2 : 0 < r2) :
    ((resample xs r1 r2).length : ℤ) = round ((xs.length : ℚ) * r2 / r1) ∧
    resample xs r1 r1 = xs := by
  refine ⟨?_, by rw [resample, if_pos rfl]⟩
  by_cases he : r1 = r2
  · subst he
    rw [resample, if_pos rfl, mul_div_assoc, div_self (ne_of_gt h1), mul_one,
      round_natCast]
  · rw [resample, if_neg he]
    simp only [List.length_map, List.length_range]
    rw [div_div_eq_mul_div]
    have hnn : 0 ≤ round ((xs.length : ℚ) * r2 / r1) := by
      rw [round_eq]
      apply Int.floor_nonneg.mpr
      positivity
    exact Int.toNat_of_nonneg hnn

theorem c8_resample_length_witness :
    ((resample [(1 : ℚ), 2, 3] 3 2).length : ℤ)
        = round ((([(1 : ℚ), 2, 3].length : ℕ) : ℚ) * 2 / 3) ∧
    resample [(1 : ℚ), 2, 3] 3 3 = [(1 : ℚ), 2, 3] :=
  c8_resample_length [1, 2, 3] 3 2 (by norm_num) (by norm_num)

/- ===================== Voice activity detector ===================== -/

/-- The hysteresis state carried by `AudioManager`
(`vadFramesAboveThreshold`, `isSpeaking`). -/
structure VadState where
  vadFramesAboveThreshold : ℕ
  isSpeaking : Bool
  deriving DecidableEq

/-- One step of `_processVAD` (audio-manager.js lines 219-245) with energy
threshold `thr` and consecutive-frame minimum `consecN`; returns the new
state plus the pair (speech-start fired, speech-end fired). -/
def processVAD (thr : ℚ) (consecN : ℕ) (s : VadState) (rms : ℚ) :
    VadState × (Bool × Bool) :=
  if thr < rms then
    if s.isSpeaking = false ∧ consecN ≤ s.vadFramesAboveThreshold + 1 then
      (⟨s.vadFramesAboveThreshold + 1, true⟩, (true, false))
    else
      (⟨s.vadFramesAboveThreshold + 1, s.isSpeaking⟩, (false, false))
  else
    if s.isSpeaking = true ∧ 0 < s.vadFramesAboveThreshold then
      if s.vadFramesAboveThreshold - 1 = 0 then
        (⟨0, false⟩, (false, true))
      else
        (⟨s.vadFramesAboveThreshold - 1, s.isSpeaking⟩, (false, false))
    else
      (⟨0, s.isSpeaking⟩, (false, false))

/-- Feed a sequence of energy samples through `_processVAD`, collecting the
fired events in order. -/
def vadRun (thr : ℚ) (consecN : ℕ) (s : VadState) : List ℚ → VadState × List (Bool × Bool)
  | [] => (s, [])
  | r :: rest =>
    ((vadRun thr consecN (processVAD thr consecN s r).1 rest).1,
     (processVAD thr consecN s r).2 ::
       (vadRun thr consecN (processVAD thr consecN s r).1 rest).2)

theorem vadRun_append (thr : ℚ) (N : ℕ) (s : VadState) (xs ys : List ℚ) :
    vadRun thr N s (xs ++ ys) =
      ((vadRun thr N (vadRun thr N s xs).1 ys).1,
       (vadRun thr N s xs).2 ++ (vadRun thr N (vadRun thr N s xs).1 ys).2) := by
  induction xs generalizing s with
  | nil => simp [vadRun]
  | cons r rest ih => simp [vadRun, ih]

/-- Below the consecutive-frame minimum, above-threshold samples only count
up: no event fires and the client stays not-speaking. -/
theorem vadRun_above_short (thr : ℚ) (N : ℕ) (xs : List ℚ)
    (hab : ∀ r ∈ xs, thr < r) :
    ∀ c, c + xs.length < N →
      vadRun thr N ⟨c, false⟩ xs
        = (⟨c + xs.length, false⟩, List.replicate xs.length (false, false)) := by
  induction xs with
  | nil => intro c hc; simp [vadRun]
  | cons r rest ih =>
      intro c hc
      have hr : thr < r := hab r (List.mem_cons_self r rest)
      have hstep : processVAD thr N ⟨c, false⟩ r
          = (⟨c + 1, false⟩, (false, false)) := by
        rw [processVAD, if_pos hr, if_neg]
        simp only [List.length_cons] at hc
        rintro ⟨-, hN⟩
        dsimp only at hN
        omega
      have hrest := ih (fun q hq => hab q (List.mem_cons_of_mem r hq)) (c + 1)
        (by simp only [List.length_cons] at hc; omega)
      simp only [vadRun, hstep, hrest, List.replicate_succ, List.length_cons]
      have hc2 : c + 1 + rest.length = c + (rest.length + 1) := by omega
      rw [hc2]

/-- C5: from the reset state, with consecutive-frame threshold `N ≥ 1`,
exactly `N-1` above-threshold samples followed by one at-or-below-threshold
sample never fire speech-start, while exactly `N` above-threshold samples
fire speech-start exactly once, on the `N`-th sample. -/
theorem c5_vad_hysteresis (thr : ℚ) (N : ℕ) (hN : 1 ≤ N)
    (xs : List ℚ) (hxlen : xs.length = N - 1) (hxab : ∀ r ∈ xs, thr < r)
    (y : ℚ) (hy : y ≤ thr)
    (zs : List ℚ) (hzlen : zs.length = N) (hzab : ∀ r ∈ zs, thr < r) :
    (vadRun thr N ⟨0, false⟩ (xs ++ [y])).2.map Prod.fst = List.replicate N false ∧
    (vadRun thr N ⟨0, false⟩ zs).2.map Prod.fst
      = List.replicate (N - 1) false ++ [true] := by
  constructor
  · have hxs := vadRun_above_short thr N xs hxab 0 (by omega)
    rw [vadRun_append, hxs]
    have hstep : processVAD thr N ⟨0 + xs.length, false⟩ y
        = (⟨0, false⟩, (false, false)) := by
      rw [processVAD, if_neg (not_lt.mpr hy), if_neg]
      rintro ⟨hf, -⟩
      simp at hf
    simp only [vadRun, hstep]
    simp only [List.map_append, List.map_cons, List.map_nil, List.map_replicate]
    rw [hxlen]
    have hrep : List.replicate (N - 1) false ++ [false] = List.replicate N false := by
      rw [← List.replicate_succ']
      congr 1
      omega
    exact hrep
  · rcases zs.eq_nil_or_concat with rfl | ⟨ws, z, rfl⟩
    · simp at hzlen
      omega
    · simp only [List.concat_eq_append] at hzlen hzab ⊢
      have hwlen : ws.length = N - 1 := by
        simp only [List.length_append, List.length_cons, List.length_nil] at hzlen
        omega
      have hws := vadRun_above_short thr N ws
        (fun q hq => hzab q (List.mem_append_left _ hq)) 0 (by omega)
      have hz : thr < z := hzab z (List.mem_append_right _ (List.mem_cons_self z []))
      rw [vadRun_append, hws]
      have hstep : processVAD thr N ⟨0 + ws.length, false⟩ z
          = (⟨0 + ws.length + 1, true⟩, (true, false)) := by
        rw [processVAD, if_pos hz, if_pos]
        exact ⟨rfl, by dsimp only; omega⟩
      simp only [vadRun, hstep]
      simp only [List.map_append, List.map_cons, List.map_nil, List.map_replicate]
      rw [hwlen]

theorem c5_vad_hysteresis_witness :
    (vadRun (1/100) 3 ⟨0, false⟩ ([1/10, 1/10] ++ [1/100])).2.map Prod.fst
        = List.replicate 3 false ∧
    (vadRun (1/100) 3 ⟨0, false⟩ [1/10, 1/10, 1/10]).2.map Prod.fst
        = List.replicate (3 - 1) false ++ [true] :=
  c5_vad_hysteresis (1/100) 3 (by norm_num)
    [1/10, 1/10] (by norm_num) (by
      intro r hr
      simp only [List.mem_cons, List.not_mem_nil, or_false] at hr
      rcases hr with rfl | rfl <;> norm_num)
    (1/100) (by norm_num)
    [1/10, 1/10, 1/10] (by norm_num) (by
      intro r hr
      simp only [List.mem_cons, List.not_mem_nil, or_false] at hr
      rcases hr with rfl | rfl | rfl <;> norm_num)

/- ===================== Session protocol client ===================== -/

/-- The mutable connection state of `GeminiLiveClient`: transport open flag
(`ws.readyState === OPEN`), `isConnected`, `isSetupComplete`, and the retry
configuration. -/
structure GeminiClient where
  wsOpen : Bool
  isConnected : Bool
  isSetupComplete : Bool
  maxRetries : ℕ
  retryCount : ℕ
  deriving DecidableEq

/-- Outbound wire messages (`_sendSetupMessage`, `sendAudio`,
`sendVideoFrame`, `sendText`). -/
inductive Wire where
  | setup
  | realtimeAudio (b64 : String)
  | realtimeImage (b64 : String)
  | clientText (t : String)
  deriving DecidableEq

/-- `connect(maxRetries)` (gemini-live-client.js lines 37-41): store the
bound, reset `retryCount`, and start the first attempt. -/
def connect (maxRetries : ℕ) : GeminiClient :=
  { wsOpen := false, isConnected := false, isSetupComplete := false,
    maxRetries := maxRetries, retryCount := 0 }

/-- `_send` (lines 394-404): a message reaches the transport only while the
socket is open; otherwise the call is a silent no-op. -/
def sendRaw (s : GeminiClient) (m : Wire) : Option Wire :=
  if s.wsOpen then some m else none

/-- What `_handleRetry` does: either schedule a further connection attempt
after the computed delay (also notifying `onRetry`), or surface the
terminal `onError` notification and schedule nothing. -/
inductive RetryOutcome where
  | scheduleRetry (delay attempt bound : ℕ) (reason : String)
  | terminalError (reason : String)
  deriving DecidableEq

/-- `_handleRetry` (gemini-live-client.js lines 117-137): while
`retryCount < maxRetries`, compute `delay = 2^(retryCount+1) * 1000`,
increment `retryCount`, notify `onRetry(retryCount, maxRetries, reason)`
and schedule `_attemptConnection` after the delay; otherwise fire
`onError` with the last reason and schedule nothing. -/
def handleRetry (s : GeminiClient) (reason : String) : GeminiClient × RetryOutcome :=
  if s.retryCount < s.maxRetries then
    ({ s with retryCount := s.retryCount + 1 },
     .scheduleRetry (2 ^ (s.retryCount + 1) * 1000) (s.retryCount + 1) s.maxRetries reason)
  else
    (s, .terminalError reason)

/-- A run of consecutive establishment failures, each funnelled through
`_handleRetry`, collecting the outcome of every failure in order. -/
def consecFailures (s : GeminiClient) (reason : String) : ℕ → GeminiClient × List RetryOutcome
  | 0 => (s, [])
  | n + 1 =>
    ((consecFailures (handleRetry s reason).1 reason n).1,
     (handleRetry s reason).2 :: (consecFailures (handleRetry s reason).1 reason n).2)

/-- `ws.onopen` (lines 70-76): clear the timer, mark the transport
connected, reset `retryCount`, and send the Setup message. -/
def onOpen (s : GeminiClient) : GeminiClient × Option Wire :=
  let s1 := { s with wsOpen := true, isConnected := true, retryCount := 0 }
  (s1, sendRaw s1 .setup)

/-- The two exits of `ws.onclose`: direct surfacing through
`onDisconnected`, or the establishment-failure retry path. -/
inductive CloseOutcome where
  | surfacedDisconnect
  | retryPath (o : RetryOutcome)
  deriving DecidableEq

/-- `ws.onclose` (gemini-live-client.js lines 88-105): record whether the
client `wasConnected`, clear the connection flags, then either notify
`onDisconnected` directly (if it was connected) or funnel the close reason
into `_handleRetry`. -/
def onClose (s : GeminiClient) (reason : String) : GeminiClient × CloseOutcome :=
  let wasConnected := s.isConnected
  let s1 := { s with wsOpen := false, isConnected := false, isSetupComplete := false }
  if wasConnected then (s1, .surfacedDisconnect)
  else ((handleRetry s1 reason).1, .retryPath (handleRetry s1 reason).2)

/-- `sendAudio` (lines 209-224): silently dropped unless setup completed;
otherwise wrap the chunk in a PCM media envelope and `_send` it. -/
def sendAudio (s : GeminiClient) (b64 : String) : GeminiClient × Option Wire :=
  if s.isSetupComplete then (s, sendRaw s (.realtimeAudio b64)) else (s, none)

/-- `sendVideoFrame` (lines 230-245): silently dropped unless setup
completed; otherwise wrap the frame in a JPEG media envelope. -/
def sendVideoFrame (s : GeminiClient) (b64 : String) : GeminiClient × Option Wire :=
  if s.isSetupComplete then (s, sendRaw s (.realtimeImage b64)) else (s, none)

/-- `sendText` (lines 251-268): silently dropped (with a console warning)
unless setup completed; otherwise wrap as a completed user turn. -/
def sendText (s : GeminiClient) (t : String) : GeminiClient × Option Wire :=
  if s.isSetupComplete then (s, sendRaw s (.clientText t)) else (s, none)

/-- The inline-data half of a model-turn part (`part.inlineData`): an
optional MIME type and the payload. -/
structure InlinePart where
  mimeType : Option String
  data : String
  deriving DecidableEq

/-- One model-turn part: optional inline data and an optional text field. -/
structure MPart where
  inlineData : Option InlinePart
  text : Option String
  deriving DecidableEq

/-- Notifications surfaced by the inbound dispatch
(`onAudioResponse`, `onTextResponse`, `onTranscript`, `onInterrupted`,
`onTurnComplete`, `onSetupComplete`, `onConnected`, `onError`). -/
inductive DispatchEvent where
  | audioResponse (data : String)
  | textResponse (t : String)
  | transcriptEv (speaker t : String)
  | interruptedEv
  | turnCompleteEv
  | setupCompleteEv
  | connectedEv
  | errorEv (t : String)
  deriving DecidableEq

/-- Events fired for one part of a model turn (lines 350-364): an audio
response when inline data carries an `audio/` MIME type, a text response
when the part's text field is truthy (present and non-empty). -/
def partEvents (p : MPart) : List DispatchEvent :=
  (match p.inlineData with
   | some d =>
     match d.mimeType with
     | some m => if m.startsWith ("audio/") then [.audioResponse d.data] else []
     | none => []
   | none => [])
  ++ (match p.text with
      | some t => if t = "" then [] else [.textResponse t]
      | none => [])

/-- One field of a parsed `serverContent` JSON object, in the textual order
the fields occupy in the message.  Transcription fields carry their
optional `.text` member; a model turn carries its `parts` array
(`content.modelTurn.parts || []`). -/
inductive SCField where
  | interruptedF (b : Bool)
  | modelTurnF (parts : List MPart)
  | outputTranscriptionF (text : Option String)
  | inputTranscriptionF (text : Option String)
  | turnCompleteF (b : Bool)
  deriving DecidableEq

/-- JavaScript property lookup on the parsed object: position-independent,
with the last occurrence winning when a key is duplicated (as
`JSON.parse` resolves duplicate keys). -/
def lastInterrupted (fs : List SCField) : Option Bool :=
  fs.foldl (fun acc f => match f with | .interruptedF b => some b | _ => acc) none

def lastModelTurn (fs : List SCField) : Option (List MPart) :=
  fs.foldl (fun acc f => match f with | .modelTurnF ps => some ps | _ => acc) none

def lastOutputTranscription (fs : List SCField) : Option (Option String) :=
  fs.foldl (fun acc f => match f with | .outputTranscriptionF t => some t | _ => acc) none

def lastInputTranscription (fs : List SCField) : Option (Option String) :=
  fs.foldl (fun acc f => match f with | .inputTranscriptionF t => some t | _ => acc) none

def lastTurnComplete (fs : List SCField) : Option Bool :=
  fs.foldl (fun acc f => match f with | .turnCompleteF b => some b | _ => acc) none

/-- `_handleServerContent` (gemini-live-client.js lines 336-388): a truthy
`interrupted` flag short-circuits everything; otherwise fire model-turn
part events in array order, then the output transcript, then the input
transcript, then turn-complete — in that fixed program order, regardless
of where the fields sit in the message. -/
def handleServerContent (fs : List SCField) : List DispatchEvent :=
  if (lastInterrupted fs).getD false then [.interruptedEv]
  else
    (match lastModelTurn fs with
     | some parts => parts.flatMap partEvents
     | none => [])
    ++ (match lastOutputTranscription fs with
        | some t => [.transcriptEv ("ai") (t.getD (""))]
        | none => [])
    ++ (match lastInputTranscription fs with
        | some t => [.transcriptEv ("user") (t.getD (""))]
        | none => [])
    ++ (if (lastTurnComplete fs).getD false then [.turnCompleteEv] else [])

/-- Modelled from the spec (claim C6 wording): transcript and turn-complete
notifications fired "in the fields' order within the message".  Used only
as the comparison point for the C6 counterexample; the source does not
implement this. -/
def specFieldOrderDispatch (fs : List SCField) : List DispatchEvent :=
  fs.flatMap fun f =>
    match f with
    | .outputTranscriptionF t => [.transcriptEv ("ai") (t.getD (""))]
    | .inputTranscriptionF t => [.transcriptEv ("user") (t.getD (""))]
    | .turnCompleteF b => if b then [.turnCompleteEv] else []
    | _ => []

/-- A `serverContent` message carrying `inputTranscription` first, then
`outputTranscription`, then `turnComplete` — the C6 probe input. -/
def msgC6 : List SCField :=
  [.inputTranscriptionF (some ("hi")), .outputTranscriptionF (some ("yo")),
   .turnCompleteF true]

/-- A parsed inbound message (`_handleMessage`): `setupComplete` truthiness,
the optional `serverContent` object, and the optional `error` object with
its optional `.message`.  A `toolCall` field is only logged and fires
nothing. -/
structure InMsg where
  setupComplete : Bool
  serverContent : Option (List SCField)
  errorField : Option (Option String)
  deriving DecidableEq

/-- `_handleMessage` (gemini-live-client.js lines 274-330): a truthy
`setupComplete` sets readiness and fires `onSetupComplete` then
`onConnected` and returns; otherwise `serverContent` is dispatched and an
`error` field fires `onError` with the remote message text. -/
def handleMessage (s : GeminiClient) (m : InMsg) : GeminiClient × List DispatchEvent :=
  if m.setupComplete then
    ({ s with isSetupComplete := true }, [.setupCompleteEv, .connectedEv])
  else
    (s,
      (match m.serverContent with
       | some fs => handleServerContent fs
       | none => [])
      ++ (match m.errorField with
          | some em => [.errorEv (em.getD ("Server error"))]
          | none => []))

/-- Process a sequence of inbound messages in delivery order, collecting
all fired notifications. -/
def runMessages (s : GeminiClient) : List InMsg → GeminiClient × List DispatchEvent
  | [] => (s, [])
  | m :: ms =>
    ((runMessages (handleMessage s m).1 ms).1,
     (handleMessage s m).2 ++ (runMessages (handleMessage s m).1 ms).2)

/-- The canonical setup-shaped inbound message. -/
def msgSetup : InMsg := { setupComplete := true, serverContent := none, errorField := none }

/-- C1 (counterexample): with `maxRetries = 3`, after exactly three
consecutive establishment failures the client has produced the delays
2000, 4000 and 8000 — but every one of the three outcomes is a scheduled
further reconnect attempt, so no terminal `onError` has been surfaced and
a third retry is still pending, contrary to the claim. -/
theorem c1_retry_backoff_counterexample :
    (consecFailures (connect 3) ("network down") 3).2
      = [.scheduleRetry 2000 1 3 ("network down"),
         .scheduleRetry 4000 2 3 ("network down"),
         .scheduleRetry 8000 3 3 ("network down")] := by
  rfl

/-- C1 (amended): with `maxRetries = 3`, four consecutive establishment
failures — the initial attempt and each of the three scheduled retries
failing — produce retry delays 2000 ms, 4000 ms and 8000 ms in order and
then the terminal `onError` notification, which schedules no further
reconnect attempt. -/
theorem c1_retry_backoff :
    (consecFailures (connect 3) ("network down") 4).2
      = [.scheduleRetry 2000 1 3 ("network down"),
         .scheduleRetry 4000 2 3 ("network down"),
         .scheduleRetry 8000 3 3 ("network down"),
         .terminalError ("network down")] := by
  rfl

/-- C2 (counterexample): immediately after the transport opens the client
has never observed `SetupComplete` (`isSetupComplete = false`), yet an
abnormal close in that state is surfaced directly through
`onDisconnected`, not funnelled into the retry path — the claim's
discriminator "has reached Ready" does not match the code. -/
theorem c2_close_before_ready_counterexample :
    (onOpen (connect 3)).1.isSetupComplete = false ∧
    (onClose (onOpen (connect 3)).1 ("abnormal close")).2 = .surfacedDisconnect := by
  exact ⟨rfl, rfl⟩

/-- C2 (amended): the close handler discriminates on whether the transport
had opened (`isConnected`), not on Ready: a close before the open event
funnels into `_handleRetry`, while a close after the open event — even
with setup still incomplete — is surfaced directly as a disconnect. -/
theorem c2_close_discriminator (s : GeminiClient) (reason : String) :
    (s.isConnected = true → (onClose s reason).2 = .surfacedDisconnect) ∧
    (s.isConnected = false →
      (onClose s reason).2 = .retryPath (handleRetry
        { s with wsOpen := false, isConnected := false, isSetupComplete := false }
        reason).2) := by
  constructor <;> intro h <;> simp [onClose, h]

theorem c2_close_discriminator_witness :
    ((onClose (onOpen (connect 3)).1 ("x")).2 = .surfacedDisconnect) ∧
    ((onClose (connect 3) ("x")).2 = .retryPath (handleRetry
      { connect 3 with wsOpen := false, isConnected := false, isSetupComplete := false }
      ("x")).2) :=
  ⟨(c2_close_discriminator (onOpen (connect 3)).1 ("x")).1 rfl,
   (c2_close_discriminator (connect 3) ("x")).2 rfl⟩

/-- C3: before `SetupComplete` has been observed, `sendAudio`,
`sendVideoFrame` and `sendText` each perform no transport send and leave
the client state unchanged — a silent readiness-gated no-op. -/
theorem c3_setup_gating (s : GeminiClient) (a i t : String)
    (h : s.isSetupComplete = false) :
    sendAudio s a = (s, none) ∧ sendVideoFrame s i = (s, none) ∧
      sendText s t = (s, none) := by
  simp [sendAudio, sendVideoFrame, sendText, h]

theorem c3_setup_gating_witness :
    sendAudio (connect 3) ("AAAA") = (connect 3, none) ∧
      sendVideoFrame (connect 3) ("BBBB") = (connect 3, none) ∧
      sendText (connect 3) ("hello") = (connect 3, none) :=
  c3_setup_gating (connect 3) ("AAAA") ("BBBB") ("hello") rfl

/-- C6 (counterexample): on a message whose fields appear in the order
`inputTranscription`, `outputTranscription`, `turnComplete`, the dispatch
fires the output transcript first and the input transcript second —
program order, not the fields' order claimed by the spec. -/
theorem c6_dispatch_order_counterexample :
    handleServerContent msgC6
      = [.transcriptEv ("ai") ("yo"), .transcriptEv ("user") ("hi"), .turnCompleteEv] ∧
    handleServerContent msgC6 ≠ specFieldOrderDispatch msgC6 := by
  exact ⟨rfl, by decide⟩

/-- C6 (amended): a `serverContent` message carrying both transcription
fields and a truthy `turnComplete` flag (no truthy `interrupted`, no model
turn) fires exactly one transcript notification per transcription field
and exactly one turn-complete notification, none duplicated, in the fixed
program order output transcript, input transcript, turn-complete —
regardless of the fields' order in the message. -/
theorem c6_dispatch_once (fs : List SCField) (a b : Option String)
    (hni : (lastInterrupted fs).getD false = false)
    (hnm : lastModelTurn fs = none)
    (ho : lastOutputTranscription fs = some a)
    (hi : lastInputTranscription fs = some b)
    (ht : (lastTurnComplete fs).getD false = true) :
    handleServerContent fs
      = [.transcriptEv ("ai") (a.getD ("")), .transcriptEv ("user") (b.getD ("")),
         .turnCompleteEv] := by
  simp [handleServerContent, hni, hnm, ho, hi, ht]

theorem c6_dispatch_once_witness :
    handleServerContent msgC6
      = [.transcriptEv ("ai") ((some ("yo")).getD ("")),
         .transcriptEv ("user") ((some ("hi")).getD ("")), .turnCompleteEv] :=
  c6_dispatch_once msgC6 (some ("yo")) (some ("hi")) rfl rfl rfl rfl rfl

/-- C7 (counterexample): after readiness has been flipped by a first
`setupComplete` message, a second setup-shaped message on the same
connection fires `onSetupComplete` and `onConnected` again — the code has
no once-per-connection guard, so processing two setup messages surfaces
the pair of notifications twice. -/
theorem c7_setup_refire_counterexample :
    (runMessages (connect 3) [msgSetup, msgSetup]).2
      = [.setupCompleteEv, .connectedEv, .setupCompleteEv, .connectedEv] ∧
    (handleMessage { connect 3 with isSetupComplete := true } msgSetup).2 ≠ [] := by
  exact ⟨rfl, by decide⟩

/-- C7 (amended): every setup-shaped inbound message — including one that
arrives after readiness is already set — flips `isSetupComplete` to true
(idempotently) and fires the setup-complete and connected notifications;
the pair fires once per setup-shaped message, not once per connection
attempt. -/
theorem c7_setup_refire (s : GeminiClient) (m : InMsg) (h : m.setupComplete = true) :
    handleMessage s m = ({ s with isSetupComplete := true },
      [.setupCompleteEv, .connectedEv]) := by
  simp [handleMessage, h]

theorem c7_setup_refire_witness :
    handleMessage { connect 3 with isSetupComplete := true } msgSetup
      = ({ { connect 3 with isSetupComplete := true } with isSetupComplete := true },
         [.setupCompleteEv, .connectedEv]) :=
  c7_setup_refire { connect 3 with isSetupComplete := true } msgSetup rfl

/- ===================== Playback queue ===================== -/

/-- Playback state of `AudioManager`: the pending decoded chunks
(`audioQueue`), the `isPlaying` flag, and the at-most-one active source. -/
structure PlaybackState where
  audioQueue : List (List ℚ)
  isPlaying : Bool
  currentSource : Option (List ℚ)
  deriving DecidableEq

/-- The loop `_playNext` traverses (audio-manager.js lines 179-213): an
empty queue clears `isPlaying`; otherwise `isPlaying` is set, the head
chunk is shifted and started; a chunk whose start throws (`fails`) falls
through to the next chunk.  Returns (queue, isPlaying, currentSource). -/
def playLoop (fails : List ℚ → Bool) :
    List (List ℚ) → Option (List ℚ) → List (List ℚ) × Bool × Option (List ℚ)
  | [], cur => ([], false, cur)
  | c :: rest, cur => if fails c then playLoop fails rest cur else (rest, true, some c)

/-- `_playNext` as a state transformer. -/
def playNext (fails : List ℚ → Bool) (s : PlaybackState) : PlaybackState :=
  let r := playLoop fails s.audioQueue s.currentSource
  { audioQueue := r.1, isPlaying := r.2.1, currentSource := r.2.2 }

/-- `queueAudio` (audio-manager.js lines 142-153): decode the payload (a
decode failure is caught and leaves the state untouched), push the chunk,
and kick `_playNext` only when not already playing. -/
def queueAudio (fails : List ℚ → Bool) (s : PlaybackState) (b : List ℕ) : PlaybackState :=
  match decodeWire b with
  | none => s
  | some pcm =>
    if s.isPlaying then { s with audioQueue := s.audioQueue ++ [pcm] }
    else playNext fails { s with audioQueue := s.audioQueue ++ [pcm] }

/-- `stopPlayback` (audio-manager.js lines 158-174): clear the queue, halt
and drop the active source, clear `isPlaying`. -/
def stopPlayback (_s : PlaybackState) : PlaybackState :=
  { audioQueue := [], isPlaying := false, currentSource := none }

/-- The `onended` reaction (lines 203-206): null the finished source and
run `_playNext`. -/
def onEnded (fails : List ℚ → Bool) (s : PlaybackState) : PlaybackState :=
  playNext fails { s with currentSource := none }

/-- States reachable from the initial playback state through the public
operations and the playback-end reaction. -/
inductive PBReach (fails : List ℚ → Bool) : PlaybackState → Prop where
  | init : PBReach fails { audioQueue := [], isPlaying := false, currentSource := none }
  | enqueue {s : PlaybackState} {b : List ℕ} :
      PBReach fails s → PBReach fails (queueAudio fails s b)
  | stop {s : PlaybackState} : PBReach fails s → PBReach fails (stopPlayback s)
  | ended {s : PlaybackState} : PBReach fails s → PBReach fails (onEnded fails s)

theorem playLoop_empty_of_not_playing (fails : List ℚ → Bool) (q : List (List ℚ))
    (cur : Option (List ℚ)) (h : (playLoop fails q cur).2.1 = false) :
    (playLoop fails q cur).1 = [] := by
  induction q with
  | nil => rfl
  | cons c rest ih =>
      simp only [playLoop] at h ⊢
      by_cases hf : fails c
      · simp only [if_pos hf] at h ⊢
        exact ih h
      · simp only [if_neg hf] at h
        exact absurd h (by decide)

/-- C9: in every state reachable through the public playback operations
(`queueAudio`, `stopPlayback`) and the playback-end reaction (`_playNext`
run from `onended`), `isPlaying = false` implies the pending queue is
empty — equivalently, whenever a decoded chunk is pending, a chunk is
actively rendering and the next one starts without caller intervention. -/
theorem c9_playback_invariant (fails : List ℚ → Bool) (s : PlaybackState)
    (hr : PBReach fails s) (hp : s.isPlaying = false) : s.audioQueue = [] := by
  revert hp
  induction hr with
  | init => intro hp; rfl
  | @enqueue s b hs ih =>
      intro hp
      unfold queueAudio at hp ⊢
      cases hd : decodeWire b with
      | none =>
          rw [hd] at hp
          exact ih hp
      | some pcm =>
          rw [hd] at hp
          dsimp only at hp ⊢
          by_cases hip : s.isPlaying = true
          · rw [if_pos hip] at hp
            dsimp only at hp
            rw [hip] at hp
            cases hp
          · rw [if_neg hip] at hp ⊢
            dsimp only [playNext] at hp ⊢
            exact playLoop_empty_of_not_playing fails _ _ hp
  | stop hs ih => intro hp; rfl
  | @ended s hs ih =>
      intro hp
      dsimp only [onEnded, playNext] at hp ⊢
      exact playLoop_empty_of_not_playing fails _ _ hp

theorem c9_playback_invariant_witness :
    (onEnded (fun _ => false)
      (queueAudio (fun _ => false)
        { audioQueue := [], isPlaying := false, currentSource := none }
        [0, 0])).audioQueue = [] :=
  c9_playback_invariant (fun _ => false) _
    (PBReach.ended (PBReach.enqueue PBReach.init)) rfl
